import Mathlib

/-!
Verification of the task lifecycle and scoring/aggregation engine of the
family task management service (src/index.js together with the Mongoose
models).  The Lean definitions below are a shallow embedding of the
route-handler bodies: the document store is made explicit (a task and the
family member list are passed in and returned), timestamps are naturals
(milliseconds), and the fields a handler reads from a JavaScript `Date`
are carried in an explicit record.
-/

namespace FamilyTasks

/-- A family member subdocument (models/Family.js `MemberSchema`):
a name and a score that defaults to 0. -/
structure Member where
  name : String
  score : Nat
deriving DecidableEq, Repr

/-- A comment subdocument (models/Task.js `CommentSchema`). -/
structure Comment where
  member : String
  text : String
  createdAt : Nat
deriving DecidableEq, Repr

/-- Task priority enumeration (models/Task.js: enum low | medium | high). -/
inductive Priority where
  | low
  | medium
  | high
deriving DecidableEq, Repr

/-- The projection of a JavaScript `Date` that the history handler reads:
`getFullYear()`, `getMonth()` (0-based), the millisecond difference to
January 1st of the same local year, and `getDay()` of that January 1st
(0 = Sunday). -/
structure JSDate where
  year : Nat
  month : Nat
  msOfYear : Nat
  jan1Weekday : Nat
deriving DecidableEq, Repr

/-- A task document (models/Task.js `TaskSchema`).  The owning family is
implicit: every operation below already works on the tasks of one family,
mirroring the `family: request.family._id` filter of each handler.
`dueDate` and `completedAt` are instants in milliseconds; `createdAt` is
kept as the date projection used by the statistics handler. -/
structure Task where
  title : String
  description : Option String
  priority : Priority
  assignedTo : Option String
  dueDate : Option Nat
  completed : Bool
  completedAt : Option Nat
  createdAt : JSDate
  comments : List Comment
deriving DecidableEq, Repr

/-- POST /api/tasks: a new task document gets the schema defaults
`completed = false`, no `completedAt`, and no comments. -/
def createTask (title : String) (description : Option String)
    (priority : Priority) (dueDate : Option Nat) (assignedTo : Option String)
    (createdAt : JSDate) : Task :=
  { title := title
    description := description
    priority := priority
    assignedTo := assignedTo
    dueDate := dueDate
    completed := false
    completedAt := none
    createdAt := createdAt
    comments := [] }

/-- The response body of POST /api/tasks/:id/complete: `memberScore` is an
optional field (absent when no member was credited). -/
structure CompleteResponse where
  completed : Bool
  completedAt : Option Nat
  memberScore : Option Nat
deriving DecidableEq, Repr

/-- The full effect of one call to the complete handler: the task document
as persisted, the family member list as left in the store, whether
`family.save()` was executed, and the response body. -/
structure CompleteOutcome where
  task : Task
  family : List Member
  familySaved : Bool
  response : CompleteResponse
deriving DecidableEq, Repr

/-- `family.members.find(m => m.name === name)` followed by
`member.score += 1`: locate the first member with the given name, bump its
score in place, and report the new score.  `none` when no member matches. -/
def incFirst : List Member → String → Option (List Member × Nat)
  | [], _ => none
  | m :: rest, nm =>
    if m.name = nm then
      some ({ m with score := m.score + 1 } :: rest, m.score + 1)
    else
      match incFirst rest nm with
      | some (l, sc) => some (m :: l, sc)
      | none => none

/-- POST /api/tasks/:id/complete (src/index.js lines 486-515).
If the task is already completed the handler returns at once, touching
nothing and omitting `memberScore`.  Otherwise it sets `completed`,
sets `completedAt` to the supplied date or to the current instant
(`date ? new Date(date) : new Date()`), saves the task, and then — only
when `task.assignedTo` is truthy (present and non-empty) and a member of
that exact name exists — increments the first such member's score and
saves the family. -/
def completeTask (task : Task) (family : List Member)
    (date : Option Nat) (now : Nat) : CompleteOutcome :=
  if task.completed then
    { task := task
      family := family
      familySaved := false
      response :=
        { completed := true, completedAt := task.completedAt, memberScore := none } }
  else
    let t' := { task with
      completed := true
      completedAt := some (match date with | some d => d | none => now) }
    match task.assignedTo with
    | none =>
      { task := t'
        family := family
        familySaved := false
        response :=
          { completed := true, completedAt := t'.completedAt, memberScore := none } }
    | some s =>
      if s.isEmpty then
        { task := t'
          family := family
          familySaved := false
          response :=
            { completed := true, completedAt := t'.completedAt, memberScore := none } }
      else
        match incFirst family s with
        | some (fam', sc) =>
          { task := t'
            family := fam'
            familySaved := true
            response :=
              { completed := true, completedAt := t'.completedAt, memberScore := some sc } }
        | none =>
          { task := t'
            family := family
            familySaved := false
            response :=
              { completed := true, completedAt := t'.completedAt, memberScore := none } }

/-- The request body of PUT /api/tasks/:id: every field is optional, and
only the supplied fields are written onto the task (`Object.assign`). -/
structure TaskUpdate where
  title : Option String := none
  description : Option String := none
  priority : Option Priority := none
  dueDate : Option Nat := none
  assignedTo : Option String := none
  completed : Option Bool := none
deriving DecidableEq, Repr

/-- PUT /api/tasks/:id (src/index.js lines 367-387).
`Object.assign(task, update)` overwrites exactly the supplied fields; then
`if (update.completed && !task.completedAt) task.completedAt = new Date()`
stamps a completion time only when the body set `completed` to a truthy
value and no completion time existed.  The family document is read for the
ownership check but never saved, so the member list passes through. -/
def putTask (task : Task) (family : List Member) (u : TaskUpdate)
    (now : Nat) : Task × List Member :=
  let t := { task with
    title := u.title.getD task.title
    description := match u.description with | some d => some d | none => task.description
    priority := u.priority.getD task.priority
    dueDate := match u.dueDate with | some d => some d | none => task.dueDate
    assignedTo := match u.assignedTo with | some a => some a | none => task.assignedTo
    completed := u.completed.getD task.completed }
  if u.completed.getD false && t.completedAt.isNone then
    ({ t with completedAt := some now }, family)
  else
    (t, family)

/-- One row of GET /api/stats/members. -/
structure MemberStat where
  member : String
  totalTasks : Nat
  completedTasks : Nat
  score : Nat
deriving DecidableEq, Repr

/-- GET /api/stats/members (src/index.js lines 592-604): for each member in
registry order, filter the family's tasks by `t.assignedTo === m.name`,
count them and the completed ones among them, and report the member's
stored score. -/
def memberStats (family : List Member) (tasks : List Task) : List MemberStat :=
  family.map fun m =>
    let memberTasks := tasks.filter fun t => t.assignedTo == some m.name
    let completedTasks := memberTasks.filter fun t => t.completed
    { member := m.name
      totalTasks := memberTasks.length
      completedTasks := completedTasks.length
      score := m.score }

/-- GET /api/alerts/overdue (src/index.js lines 681-685): the store query
`{completed: false, dueDate: {$lt: now}}` keeps exactly the incomplete
tasks that have a due date strictly earlier than `now`; a document without
a `dueDate` field never matches `$lt`.  The route then projects each kept
task to a summary, which does not change membership. -/
def overdueTasks (tasks : List Task) (now : Nat) : List Task :=
  tasks.filter fun t =>
    !t.completed && (match t.dueDate with
      | some d => decide (d < now)
      | none => false)

/-- `String(n).padStart(2, '0')`: left-pad a rendered number to width 2
with zeros. -/
def padStart2 (s : String) : String :=
  if s.length < 2 then String.mk (List.replicate (2 - s.length) '0') ++ s else s

/-- The month bucket key
`` `${date.getFullYear()}-${String(date.getMonth() + 1).padStart(2, '0')}` ``. -/
def monthKey (d : JSDate) : String :=
  toString d.year ++ "-" ++ padStart2 (toString (d.month + 1))

/-- `Math.ceil(((date - firstDayOfYear) / 86400000 + firstDayOfYear.getDay() + 1) / 7)`.
The JavaScript expression is exact rational arithmetic at this scale (the
float error is far below the distance of any non-boundary value to the
next integer), so it is embedded as the ceiling of the exact rational. -/
def weekNumber (d : JSDate) : ℤ :=
  ⌈((d.msOfYear : ℚ) / 86400000 + (d.jan1Weekday : ℚ) + 1) / 7⌉

/-- The week bucket key
`` `${date.getFullYear()}-W${String(weekNumber).padStart(2, '0')}` ``. -/
def weekKey (d : JSDate) : String :=
  toString d.year ++ "-W" ++ padStart2 (toString (weekNumber d))

/-- Bucket-key selection of GET /api/stats/history: `month` uses the
calendar-month key, anything else (the default `week`) the week key. -/
def historyKey (period : String) (d : JSDate) : String :=
  if period = "month" then monthKey d else weekKey d

/-- One emitted history record `{period, total, completed}`. -/
structure Bucket where
  period : String
  total : Nat
  completed : Nat
deriving DecidableEq, Repr

/-- One iteration of the `tasks.forEach` loop: find (or append, as a `Map`
inserts at the end) the bucket of the key, add 1 to its `total`, and add 1
to its `completed` when the task is completed. -/
def addTask (buckets : List Bucket) (key : String) (completed : Bool) :
    List Bucket :=
  match buckets with
  | [] => [{ period := key, total := 1, completed := if completed then 1 else 0 }]
  | b :: rest =>
    if b.period = key then
      { period := b.period
        total := b.total + 1
        completed := b.completed + if completed then 1 else 0 } :: rest
    else
      b :: addTask rest key completed

/-- The comparison `(a, b) => a.period.localeCompare(b.period)`: ascending
order on the period key (for these ASCII digit/dash/letter keys
`localeCompare` agrees with code-unit lexicographic order). -/
def bucketLE (a b : Bucket) : Prop :=
  a.period ≤ b.period

instance : DecidableRel bucketLE := fun a b =>
  inferInstanceAs (Decidable (a.period ≤ b.period))

instance : IsTotal Bucket bucketLE :=
  ⟨fun a b => le_total a.period b.period⟩

instance : IsTrans Bucket bucketLE :=
  ⟨fun _ _ _ hab hbc => le_trans hab hbc⟩

/-- `.sort((a, b) => a.period.localeCompare(b.period))`: sort the emitted
records ascending by the period key. -/
def sortBuckets (l : List Bucket) : List Bucket :=
  List.insertionSort bucketLE l

/-- GET /api/stats/history (src/index.js lines 632-655): bucket the
family's tasks by the key derived from each creation date, then emit the
accumulated records sorted ascending by key. -/
def history (tasks : List Task) (period : String) : List Bucket :=
  sortBuckets
    (tasks.foldl
      (fun acc t => addTask acc (historyKey period t.createdAt) t.completed) [])

/-- A sequence of calls to the complete handler against one task and its
family: each element is the optional explicit completion date and the
current instant of that call. -/
def runCompletes (t : Task) (family : List Member) :
    List (Option Nat × Nat) → Task × List Member
  | [] => (t, family)
  | (d, n) :: ops =>
    let o := completeTask t family d n
    runCompletes o.task o.family ops

/-- The sum of the `total` fields of a history output. -/
def bucketTotalSum (l : List Bucket) : Nat :=
  (l.map Bucket.total).sum

/-- The sum of the `completed` fields of a history output. -/
def bucketCompletedSum (l : List Bucket) : Nat :=
  (l.map Bucket.completed).sum

/-! ### Helper lemmas about the completion engine -/

lemma incFirst_eq_of_first_match (family : List Member) (s : String)
    (i : Nat) (mi : Member) (hmi : family[i]? = some mi) (hname : mi.name = s)
    (hfirst : ∀ j, j < i → ∀ mj, family[j]? = some mj → mj.name ≠ s) :
    incFirst family s =
      some (family.set i { mi with score := mi.score + 1 }, mi.score + 1) := by
  induction family generalizing i with
  | nil => simp at hmi
  | cons m rest ih =>
    cases i with
    | zero =>
      rw [List.getElem?_cons_zero] at hmi
      obtain rfl : m = mi := by injection hmi
      simp [incFirst, hname]
    | succ j =>
      have hm : m.name ≠ s := hfirst 0 (Nat.succ_pos j) m List.getElem?_cons_zero
      rw [List.getElem?_cons_succ] at hmi
      have hrest := ih j hmi
        (fun k hk mk hmk => hfirst (k + 1) (Nat.succ_lt_succ hk) mk (by simpa using hmk))
      simp [incFirst, hm, hrest, List.set_cons_succ]

lemma incFirst_eq_none_iff (family : List Member) (s : String) :
    incFirst family s = none ↔ ∀ m ∈ family, m.name ≠ s := by
  induction family with
  | nil => simp [incFirst]
  | cons m rest ih =>
    by_cases h : m.name = s
    · simp [incFirst, h]
    · simp only [incFirst, if_neg h]
      cases hr : incFirst rest s with
      | none =>
        simp only [List.forall_mem_cons]
        exact ⟨fun _ => ⟨h, ih.mp hr⟩, fun _ => trivial⟩
      | some p =>
        simp only [List.forall_mem_cons]
        constructor
        · intro hcontra
          exact absurd hcontra (by simp)
        · intro hall
          rw [ih.mpr hall.2] at hr
          exact absurd hr (by simp)

lemma completeTask_of_completed (task : Task) (family : List Member)
    (date : Option Nat) (now : Nat) (h : task.completed = true) :
    completeTask task family date now =
      { task := task
        family := family
        familySaved := false
        response :=
          { completed := true, completedAt := task.completedAt, memberScore := none } } := by
  simp [completeTask, h]

lemma completeTask_task_of_not_completed (task : Task) (family : List Member)
    (date : Option Nat) (now : Nat) (h : task.completed = false) :
    (completeTask task family date now).task =
      { task with
        completed := true
        completedAt := some (match date with | some d => d | none => now) } := by
  unfold completeTask
  rw [if_neg (by simp [h])]
  cases task.assignedTo with
  | none => rfl
  | some s =>
    dsimp only
    by_cases he : s.isEmpty
    · simp [he]
    · simp only [Bool.not_eq_true] at he
      simp only [he, Bool.false_eq_true, if_false]
      cases incFirst family s with
      | none => rfl
      | some p => obtain ⟨l, sc⟩ := p; rfl

lemma completeTask_completed_true (task : Task) (family : List Member)
    (date : Option Nat) (now : Nat) :
    (completeTask task family date now).task.completed = true := by
  by_cases h : task.completed
  · rw [completeTask_of_completed task family date now h]
    exact h
  · rw [completeTask_task_of_not_completed task family date now (by simpa using h)]

lemma completeTask_of_first_match (task : Task) (family : List Member)
    (date : Option Nat) (now : Nat) (s : String) (i : Nat) (mi : Member)
    (hc : task.completed = false) (ha : task.assignedTo = some s) (hs : s ≠ "")
    (hmi : family[i]? = some mi) (hname : mi.name = s)
    (hfirst : ∀ j, j < i → ∀ mj, family[j]? = some mj → mj.name ≠ s) :
    completeTask task family date now =
      { task := { task with
          completed := true
          completedAt := some (match date with | some d => d | none => now) }
        family := family.set i { mi with score := mi.score + 1 }
        familySaved := true
        response :=
          { completed := true
            completedAt := some (match date with | some d => d | none => now)
            memberScore := some (mi.score + 1) } } := by
  have hinc := incFirst_eq_of_first_match family s i mi hmi hname hfirst
  have hse : ¬(s.isEmpty = true) := fun hh => hs ((String.isEmpty_iff s).mp hh)
  unfold completeTask
  rw [if_neg (by simp [hc]), ha]
  dsimp only
  rw [if_neg hse, hinc]

lemma completeTask_of_no_credit (task : Task) (family : List Member)
    (date : Option Nat) (now : Nat) (hc : task.completed = false)
    (h : task.assignedTo = none ∨ task.assignedTo = some "" ∨
      ∃ s, task.assignedTo = some s ∧ incFirst family s = none) :
    completeTask task family date now =
      { task := { task with
          completed := true
          completedAt := some (match date with | some d => d | none => now) }
        family := family
        familySaved := false
        response :=
          { completed := true
            completedAt := some (match date with | some d => d | none => now)
            memberScore := none } } := by
  unfold completeTask
  rw [if_neg (by simp [hc])]
  rcases h with ha | ha | ⟨s, ha, hn⟩ <;> rw [ha] <;> dsimp only
  · rfl
  · by_cases he : (s : String).isEmpty
    · simp [he]
    · simp only [Bool.not_eq_true] at he
      simp only [he, Bool.false_eq_true, if_false]
      rw [hn]

/-- C1: completing a not-yet-completed task sets `completed = true`, stamps
`completedAt` with the supplied date (or the current instant when none is
supplied), and, when `assignedTo` names a member of the family (taking the
first exact name match), increments exactly that member's score by 1,
saves the family, and reports the new score as `memberScore`. -/
theorem complete_first_time_credits_member (task : Task) (family : List Member)
    (date : Option Nat) (now : Nat) (s : String) (i : Nat) (mi : Member)
    (hc : task.completed = false) (ha : task.assignedTo = some s) (hs : s ≠ "")
    (hmi : family[i]? = some mi) (hname : mi.name = s)
    (hfirst : ∀ j, j < i → ∀ mj, family[j]? = some mj → mj.name ≠ s) :
    (completeTask task family date now).task.completed = true ∧
    (completeTask task family date now).task.completedAt = some (date.getD now) ∧
    (completeTask task family date now).response.completed = true ∧
    (completeTask task family date now).response.completedAt = some (date.getD now) ∧
    (completeTask task family date now).family =
      family.set i { mi with score := mi.score + 1 } ∧
    (completeTask task family date now).response.memberScore = some (mi.score + 1) ∧
    (completeTask task family date now).familySaved = true := by
  rw [completeTask_of_first_match task family date now s i mi hc ha hs hmi hname hfirst]
  refine ⟨rfl, ?_, rfl, ?_, rfl, rfl, rfl⟩ <;> cases date <;> rfl

/-- Witness for C1: the spec scenario with Alice (score 0) and Bob
(score 0), task T1 assigned to Alice. -/
theorem complete_first_time_credits_member_witness :
    (completeTask
        (createTask "T1" none Priority.medium none (some "Alice") ⟨2024, 0, 0, 1⟩)
        [{ name := "Alice", score := 0 }, { name := "Bob", score := 0 }]
        none 7).task.completed = true ∧
    (completeTask
        (createTask "T1" none Priority.medium none (some "Alice") ⟨2024, 0, 0, 1⟩)
        [{ name := "Alice", score := 0 }, { name := "Bob", score := 0 }]
        none 7).task.completedAt = some 7 ∧
    (completeTask
        (createTask "T1" none Priority.medium none (some "Alice") ⟨2024, 0, 0, 1⟩)
        [{ name := "Alice", score := 0 }, { name := "Bob", score := 0 }]
        none 7).response.completed = true ∧
    (completeTask
        (createTask "T1" none Priority.medium none (some "Alice") ⟨2024, 0, 0, 1⟩)
        [{ name := "Alice", score := 0 }, { name := "Bob", score := 0 }]
        none 7).response.completedAt = some 7 ∧
    (completeTask
        (createTask "T1" none Priority.medium none (some "Alice") ⟨2024, 0, 0, 1⟩)
        [{ name := "Alice", score := 0 }, { name := "Bob", score := 0 }]
        none 7).family =
      [{ name := "Alice", score := 1 }, { name := "Bob", score := 0 }] ∧
    (completeTask
        (createTask "T1" none Priority.medium none (some "Alice") ⟨2024, 0, 0, 1⟩)
        [{ name := "Alice", score := 0 }, { name := "Bob", score := 0 }]
        none 7).response.memberScore = some 1 ∧
    (completeTask
        (createTask "T1" none Priority.medium none (some "Alice") ⟨2024, 0, 0, 1⟩)
        [{ name := "Alice", score := 0 }, { name := "Bob", score := 0 }]
        none 7).familySaved = true :=
  complete_first_time_credits_member
    (createTask "T1" none Priority.medium none (some "Alice") ⟨2024, 0, 0, 1⟩)
    [{ name := "Alice", score := 0 }, { name := "Bob", score := 0 }]
    none 7 "Alice" 0 { name := "Alice", score := 0 }
    rfl rfl (by decide) rfl rfl
    (fun j hj mj _ => absurd hj (Nat.not_lt_zero j))

/-- C2: the complete operation is idempotent — an already-completed task is
returned unchanged with its existing `completedAt` and no `memberScore`,
touching no task or member state; consequently a second completion of the
same task is a full no-op and two calls credit the assigned member exactly
once in total. -/
theorem complete_idempotent (task : Task) (family : List Member)
    (date : Option Nat) (now : Nat) (date' : Option Nat) (now' : Nat) :
    (task.completed = true →
      completeTask task family date now =
        { task := task
          family := family
          familySaved := false
          response :=
            { completed := true, completedAt := task.completedAt, memberScore := none } }) ∧
    (completeTask (completeTask task family date now).task
        (completeTask task family date now).family date' now' =
      { task := (completeTask task family date now).task
        family := (completeTask task family date now).family
        familySaved := false
        response :=
          { completed := true
            completedAt := (completeTask task family date now).task.completedAt
            memberScore := none } }) ∧
    (∀ s i mi, task.completed = false → task.assignedTo = some s → s ≠ "" →
      family[i]? = some mi → mi.name = s →
      (∀ j, j < i → ∀ mj, family[j]? = some mj → mj.name ≠ s) →
      (runCompletes task family [(date, now), (date', now')]).2 =
        family.set i { mi with score := mi.score + 1 }) := by
  refine ⟨fun h => completeTask_of_completed task family date now h,
    completeTask_of_completed _ _ date' now'
      (completeTask_completed_true task family date now), ?_⟩
  intro s i mi hc ha hs hmi hname hfirst
  simp only [runCompletes]
  rw [completeTask_of_completed _ _ date' now'
      (completeTask_completed_true task family date now)]
  rw [completeTask_of_first_match task family date now s i mi hc ha hs hmi hname hfirst]

/-- Witness for C2: Alice's task completed twice ends with Alice's score
exactly 1. -/
theorem complete_idempotent_witness :
    (runCompletes
        (createTask "T1" none Priority.medium none (some "Alice") ⟨2024, 0, 0, 1⟩)
        [{ name := "Alice", score := 0 }]
        [((none : Option Nat), 7), ((none : Option Nat), 9)]).2 =
      [{ name := "Alice", score := 1 }] :=
  (complete_idempotent
      (createTask "T1" none Priority.medium none (some "Alice") ⟨2024, 0, 0, 1⟩)
      [{ name := "Alice", score := 0 }] none 7 none 9).2.2
    "Alice" 0 { name := "Alice", score := 0 }
    rfl rfl (by decide) rfl rfl
    (fun j hj mj _ => absurd hj (Nat.not_lt_zero j))

/-- C8: the first completion of a task with no assignee, an empty assignee,
or an assignee naming no member of the family still sets `completed` and
`completedAt`, but leaves the member list untouched, performs no family
write, and omits `memberScore`. -/
theorem complete_without_credit_frame (task : Task) (family : List Member)
    (date : Option Nat) (now : Nat)
    (hc : task.completed = false)
    (h : task.assignedTo = none ∨ task.assignedTo = some "" ∨
      ∃ s, task.assignedTo = some s ∧ ∀ m ∈ family, m.name ≠ s) :
    (completeTask task family date now).task.completed = true ∧
    (completeTask task family date now).task.completedAt = some (date.getD now) ∧
    (completeTask task family date now).family = family ∧
    (completeTask task family date now).familySaved = false ∧
    (completeTask task family date now).response.memberScore = none := by
  have h' : task.assignedTo = none ∨ task.assignedTo = some "" ∨
      ∃ s, task.assignedTo = some s ∧ incFirst family s = none := by
    rcases h with ha | ha | ⟨s, ha, hall⟩
    · exact Or.inl ha
    · exact Or.inr (Or.inl ha)
    · exact Or.inr (Or.inr ⟨s, ha, (incFirst_eq_none_iff family s).mpr hall⟩)
  rw [completeTask_of_no_credit task family date now hc h']
  refine ⟨rfl, ?_, rfl, rfl, rfl⟩
  cases date <;> rfl

/-- Witness for C8: an unassigned task is completed without any member
effect. -/
theorem complete_without_credit_frame_witness :
    (completeTask
        (createTask "T2" none Priority.medium (some 3) none ⟨2024, 0, 0, 1⟩)
        [{ name := "Alice", score := 0 }] none 7).task.completed = true ∧
    (completeTask
        (createTask "T2" none Priority.medium (some 3) none ⟨2024, 0, 0, 1⟩)
        [{ name := "Alice", score := 0 }] none 7).task.completedAt = some 7 ∧
    (completeTask
        (createTask "T2" none Priority.medium (some 3) none ⟨2024, 0, 0, 1⟩)
        [{ name := "Alice", score := 0 }] none 7).family =
      [{ name := "Alice", score := 0 }] ∧
    (completeTask
        (createTask "T2" none Priority.medium (some 3) none ⟨2024, 0, 0, 1⟩)
        [{ name := "Alice", score := 0 }] none 7).familySaved = false ∧
    (completeTask
        (createTask "T2" none Priority.medium (some 3) none ⟨2024, 0, 0, 1⟩)
        [{ name := "Alice", score := 0 }] none 7).response.memberScore = none :=
  complete_without_credit_frame
    (createTask "T2" none Priority.medium (some 3) none ⟨2024, 0, 0, 1⟩)
    [{ name := "Alice", score := 0 }] none 7 rfl (Or.inl rfl)

/-- C10: when several members share the assigned name, a first completion
credits exactly the first such member in registry order, returns that
member's new score, and leaves every other member (in particular every
later member with the same name) unchanged. -/
theorem complete_duplicate_name_first_only (task : Task) (family : List Member)
    (date : Option Nat) (now : Nat) (s : String) (i j : Nat) (mi mj : Member)
    (hc : task.completed = false) (ha : task.assignedTo = some s) (hs : s ≠ "")
    (hmi : family[i]? = some mi) (hname : mi.name = s)
    (hfirst : ∀ k, k < i → ∀ mk, family[k]? = some mk → mk.name ≠ s)
    (hij : i < j) (hmj : family[j]? = some mj) (hnamej : mj.name = s) :
    (completeTask task family date now).response.memberScore = some (mi.score + 1) ∧
    (completeTask task family date now).family[i]? =
      some { mi with score := mi.score + 1 } ∧
    ∀ k, k ≠ i → (completeTask task family date now).family[k]? = family[k]? := by
  rw [completeTask_of_first_match task family date now s i mi hc ha hs hmi hname hfirst]
  have hilen : i < family.length := by
    by_contra hlen
    rw [List.getElem?_eq_none (Nat.le_of_not_lt hlen)] at hmi
    exact absurd hmi (by simp)
  refine ⟨rfl, ?_, ?_⟩
  · exact List.getElem?_set_self hilen
  · intro k hk
    exact List.getElem?_set_ne (Ne.symm hk)

/-- Witness for C10: two members both named Alice; only the first is
credited. -/
theorem complete_duplicate_name_first_only_witness :
    (completeTask
        (createTask "T1" none Priority.medium none (some "Alice") ⟨2024, 0, 0, 1⟩)
        [{ name := "Alice", score := 4 }, { name := "Alice", score := 9 }]
        none 7).response.memberScore = some 5 ∧
    (completeTask
        (createTask "T1" none Priority.medium none (some "Alice") ⟨2024, 0, 0, 1⟩)
        [{ name := "Alice", score := 4 }, { name := "Alice", score := 9 }]
        none 7).family[0]? = some { name := "Alice", score := 5 } ∧
    ∀ k, k ≠ 0 →
      (completeTask
          (createTask "T1" none Priority.medium none (some "Alice") ⟨2024, 0, 0, 1⟩)
          [{ name := "Alice", score := 4 }, { name := "Alice", score := 9 }]
          none 7).family[k]? =
        ([{ name := "Alice", score := 4 }, { name := "Alice", score := 9 }] :
          List Member)[k]? :=
  complete_duplicate_name_first_only
    (createTask "T1" none Priority.medium none (some "Alice") ⟨2024, 0, 0, 1⟩)
    [{ name := "Alice", score := 4 }, { name := "Alice", score := 9 }]
    none 7 "Alice" 0 1 { name := "Alice", score := 4 } { name := "Alice", score := 9 }
    rfl rfl (by decide) rfl rfl
    (fun k hk mk _ => absurd hk (Nat.not_lt_zero k))
    (by decide) rfl rfl

/-- C9: the generic task update can set `completed = true`, in which case
it stamps `completedAt` with the current time only when none was set and
keeps an existing `completedAt`; it never writes the family (so no score
changes); and setting `completed = false` leaves a previously set
`completedAt` in place. -/
theorem put_update_completion_semantics (task : Task) (family : List Member)
    (u : TaskUpdate) (now : Nat) :
    (putTask task family u now).2 = family ∧
    (u.completed = some true → (putTask task family u now).1.completed = true) ∧
    (u.completed = some true → task.completedAt = none →
      (putTask task family u now).1.completedAt = some now) ∧
    (∀ x, u.completed = some true → task.completedAt = some x →
      (putTask task family u now).1.completedAt = some x) ∧
    (u.completed = some false →
      (putTask task family u now).1.completed = false ∧
      (putTask task family u now).1.completedAt = task.completedAt) := by
  rcases hu : u.completed with _ | b
  · simp [putTask, hu]
  · cases b
    · simp [putTask, hu]
    · rcases hta : task.completedAt with _ | x
      · simp [putTask, hu, hta]
      · simp [putTask, hu, hta]

/-- Witness for C9: updating a fresh task with `completed: true` marks it
completed, stamps the current instant, and leaves the family untouched. -/
theorem put_update_completion_semantics_witness :
    (putTask (createTask "T" none Priority.medium none none ⟨2024, 0, 0, 1⟩)
        [{ name := "Alice", score := 2 }] { completed := some true } 9).2 =
      [{ name := "Alice", score := 2 }] ∧
    (putTask (createTask "T" none Priority.medium none none ⟨2024, 0, 0, 1⟩)
        [{ name := "Alice", score := 2 }] { completed := some true } 9).1.completed =
      true ∧
    (putTask (createTask "T" none Priority.medium none none ⟨2024, 0, 0, 1⟩)
        [{ name := "Alice", score := 2 }] { completed := some true } 9).1.completedAt =
      some 9 :=
  ⟨(put_update_completion_semantics
      (createTask "T" none Priority.medium none none ⟨2024, 0, 0, 1⟩)
      [{ name := "Alice", score := 2 }] { completed := some true } 9).1,
   (put_update_completion_semantics
      (createTask "T" none Priority.medium none none ⟨2024, 0, 0, 1⟩)
      [{ name := "Alice", score := 2 }] { completed := some true } 9).2.1 rfl,
   (put_update_completion_semantics
      (createTask "T" none Priority.medium none none ⟨2024, 0, 0, 1⟩)
      [{ name := "Alice", score := 2 }] { completed := some true } 9).2.2.1 rfl rfl⟩

/-- Counterexample to C3 as stated: the exposed update operation can reset
`completed` to `false` while leaving `completedAt` set, so after the
sequence create → complete → update `{completed: false}` the "completedAt
is set iff completed" invariant fails. -/
theorem completed_iff_completedAt_fails :
    (putTask
        (completeTask
          (createTask "dishes" none Priority.medium none none ⟨2024, 0, 0, 1⟩)
          [] none 5).task
        [] { completed := some false } 6).1.completed = false ∧
    (putTask
        (completeTask
          (createTask "dishes" none Priority.medium none none ⟨2024, 0, 0, 1⟩)
          [] none 5).task
        [] { completed := some false } 6).1.completedAt = some 5 := by
  exact ⟨rfl, rfl⟩

/-- C3 amended: along any sequence of completion operations, a task that
satisfies "completedAt is set iff completed" keeps satisfying it, and a set
`completedAt` is never cleared or reassigned by completion; the original
claim's quantification over all exposed operations fails only because the
generic update can set `completed = false` while `completedAt` stays. -/
theorem completion_preserves_completedAt_invariant (t : Task)
    (family : List Member) (ops : List (Option Nat × Nat))
    (h : t.completed = true ↔ t.completedAt ≠ none) :
    ((runCompletes t family ops).1.completed = true ↔
      (runCompletes t family ops).1.completedAt ≠ none) ∧
    (∀ x, t.completedAt = some x →
      (runCompletes t family ops).1.completedAt = some x) := by
  induction ops generalizing t family with
  | nil => exact ⟨h, fun _ hx => hx⟩
  | cons op ops ih =>
    obtain ⟨d, n⟩ := op
    by_cases hc : t.completed = true
    · have he := completeTask_of_completed t family d n hc
      simp only [runCompletes, he]
      exact ih t family h
    · have hcf : t.completed = false := by simpa using hc
      have hnone : t.completedAt = none := by
        by_contra hx
        exact hc (h.mpr hx)
      simp only [runCompletes]
      have htask := completeTask_task_of_not_completed t family d n hcf
      have hinv : (completeTask t family d n).task.completed = true ↔
          (completeTask t family d n).task.completedAt ≠ none := by
        rw [htask]
        simp
      refine ⟨(ih _ _ hinv).1, ?_⟩
      intro x hx
      rw [hnone] at hx
      exact absurd hx (by simp)

/-- Witness for the amended C3: a fresh task run through one completion
satisfies the invariant. -/
theorem completion_preserves_completedAt_invariant_witness :
    ((runCompletes (createTask "T" none Priority.medium none none ⟨2024, 0, 0, 1⟩)
        [] [((none : Option Nat), 5)]).1.completed = true ↔
      (runCompletes (createTask "T" none Priority.medium none none ⟨2024, 0, 0, 1⟩)
        [] [((none : Option Nat), 5)]).1.completedAt ≠ none) ∧
    (∀ x,
      (createTask "T" none Priority.medium none none ⟨2024, 0, 0, 1⟩).completedAt =
        some x →
      (runCompletes (createTask "T" none Priority.medium none none ⟨2024, 0, 0, 1⟩)
        [] [((none : Option Nat), 5)]).1.completedAt = some x) :=
  completion_preserves_completedAt_invariant
    (createTask "T" none Priority.medium none none ⟨2024, 0, 0, 1⟩)
    [] [((none : Option Nat), 5)] (by simp [createTask])

/-- C4: the per-member statistics are one record per member in registry
order (members with no assigned tasks included), where `totalTasks` counts
the tasks whose `assignedTo` exactly equals the member's name,
`completedTasks` counts the completed ones among those (hence is at most
`totalTasks`), and `score` is the member's stored score field. -/
theorem memberStats_spec (family : List Member) (tasks : List Task) :
    memberStats family tasks = family.map (fun m =>
      { member := m.name
        totalTasks := tasks.countP fun t => t.assignedTo == some m.name
        completedTasks :=
          tasks.countP fun t => (t.assignedTo == some m.name) && t.completed
        score := m.score }) ∧
    ∀ r ∈ memberStats family tasks, r.completedTasks ≤ r.totalTasks := by
  constructor
  · unfold memberStats
    congr 1
    funext m
    simp only [List.filter_filter, List.countP_eq_length_filter]
    have hcomm :
        (fun t : Task => t.completed && (t.assignedTo == some m.name)) =
          fun t : Task => (t.assignedTo == some m.name) && t.completed := by
      funext t
      exact Bool.and_comm _ _
    rw [hcomm]
  · intro r hr
    unfold memberStats at hr
    rw [List.mem_map] at hr
    obtain ⟨m, _, rfl⟩ := hr
    exact List.length_filter_le _ _

/-- Witness for C4: a concrete family with one assigned completed task. -/
theorem memberStats_spec_witness :
    ({ member := "Alice", totalTasks := 1, completedTasks := 1, score := 3 } :
        MemberStat).completedTasks ≤
      ({ member := "Alice", totalTasks := 1, completedTasks := 1, score := 3 } :
        MemberStat).totalTasks :=
  (memberStats_spec [{ name := "Alice", score := 3 }]
      [{ title := "T", description := none, priority := Priority.medium
         assignedTo := some "Alice", dueDate := none, completed := true
         completedAt := some 5, createdAt := ⟨2024, 0, 0, 1⟩, comments := [] }]).2
    { member := "Alice", totalTasks := 1, completedTasks := 1, score := 3 }
    (by decide)

/-- C5: a task appears in the overdue result for query instant `now` iff it
is in the family's task list, is not completed, and has a due date that is
defined and strictly earlier than `now`; tasks without a due date never
appear. -/
theorem overdue_selection (tasks : List Task) (now : Nat) (t : Task) :
    t ∈ overdueTasks tasks now ↔
      t ∈ tasks ∧ t.completed = false ∧ ∃ d, t.dueDate = some d ∧ d < now := by
  unfold overdueTasks
  rw [List.mem_filter]
  cases hd : t.dueDate with
  | none => simp [hd]
  | some d => simp [hd, and_assoc]

/-! ### Helper lemmas about the history aggregation -/

lemma addTask_totalSum (l : List Bucket) (k : String) (c : Bool) :
    bucketTotalSum (addTask l k c) = bucketTotalSum l + 1 := by
  induction l with
  | nil => simp [addTask, bucketTotalSum]
  | cons b rest ih =>
    by_cases h : b.period = k
    · simp only [addTask, if_pos h, bucketTotalSum, List.map_cons, List.sum_cons]
      omega
    · simp only [addTask, if_neg h, bucketTotalSum, List.map_cons, List.sum_cons] at ih ⊢
      omega

lemma addTask_completedSum (l : List Bucket) (k : String) (c : Bool) :
    bucketCompletedSum (addTask l k c) =
      bucketCompletedSum l + (if c then 1 else 0) := by
  induction l with
  | nil => simp [addTask, bucketCompletedSum]
  | cons b rest ih =>
    by_cases h : b.period = k
    · simp only [addTask, if_pos h, bucketCompletedSum, List.map_cons, List.sum_cons]
      omega
    · simp only [addTask, if_neg h, bucketCompletedSum, List.map_cons,
        List.sum_cons] at ih ⊢
      omega

lemma foldl_addTask_totalSum (tasks : List Task) (period : String) :
    ∀ acc, bucketTotalSum
        (tasks.foldl
          (fun a t => addTask a (historyKey period t.createdAt) t.completed) acc) =
      bucketTotalSum acc + tasks.length := by
  induction tasks with
  | nil =>
    intro acc
    simp
  | cons t rest ih =>
    intro acc
    simp only [List.foldl_cons, List.length_cons]
    rw [ih, addTask_totalSum]
    omega

lemma foldl_addTask_completedSum (tasks : List Task) (period : String) :
    ∀ acc, bucketCompletedSum
        (tasks.foldl
          (fun a t => addTask a (historyKey period t.createdAt) t.completed) acc) =
      bucketCompletedSum acc + (tasks.filter fun t => t.completed).length := by
  induction tasks with
  | nil =>
    intro acc
    simp
  | cons t rest ih =>
    intro acc
    simp only [List.foldl_cons]
    rw [ih, addTask_completedSum]
    by_cases hc : t.completed
    · simp [List.filter_cons, hc]
      omega
    · simp [List.filter_cons, hc]

lemma sortBuckets_totalSum (l : List Bucket) :
    bucketTotalSum (sortBuckets l) = bucketTotalSum l :=
  ((List.perm_insertionSort bucketLE l).map Bucket.total).sum_eq

lemma sortBuckets_completedSum (l : List Bucket) :
    bucketCompletedSum (sortBuckets l) = bucketCompletedSum l :=
  ((List.perm_insertionSort bucketLE l).map Bucket.completed).sum_eq

/-- C6: for either period granularity (indeed for any period value), the
history buckets account for every task exactly once — the `total` fields
sum to the number of the family's tasks and the `completed` fields sum to
the number of its completed tasks — and the emitted records are sorted
ascending by period key. -/
theorem history_totals_and_sorted (tasks : List Task) (period : String) :
    bucketTotalSum (history tasks period) = tasks.length ∧
    bucketCompletedSum (history tasks period) =
      (tasks.filter fun t => t.completed).length ∧
    List.Pairwise bucketLE (history tasks period) := by
  refine ⟨?_, ?_, ?_⟩
  · unfold history
    rw [sortBuckets_totalSum, foldl_addTask_totalSum]
    simp [bucketTotalSum]
  · unfold history
    rw [sortBuckets_completedSum, foldl_addTask_completedSum]
    simp [bucketCompletedSum]
  · exact List.sorted_insertionSort bucketLE _

/-! ### Helper lemmas about the week-number arithmetic -/

lemma ceil_natCast_div_natCast (a b : ℕ) (hb : 0 < b) :
    ⌈(a : ℚ) / (b : ℚ)⌉ = (((a + b - 1) / b : ℕ) : ℤ) := by
  have hbq : (0 : ℚ) < (b : ℚ) := by exact_mod_cast hb
  have hdm := Nat.div_add_mod (a + b - 1) b
  have hmod : (a + b - 1) % b < b := Nat.mod_lt _ hb
  set q := (a + b - 1) / b with hqdef
  have h2 : a ≤ b * q := by omega
  have h1 : b * q < a + b := by omega
  rw [Int.ceil_eq_iff]
  push_cast
  refine ⟨?_, ?_⟩
  · rw [lt_div_iff₀ hbq]
    have h1c : (b : ℚ) * (q : ℚ) < (a : ℚ) + b := by exact_mod_cast h1
    nlinarith [h1c]
  · rw [div_le_iff₀ hbq]
    have h2c : (a : ℚ) ≤ (b : ℚ) * q := by exact_mod_cast h2
    linarith [h2c]

lemma weekNumber_eq_natDiv (d : JSDate) :
    weekNumber d =
      (((d.msOfYear + (d.jan1Weekday + 1) * 86400000 + 604800000 - 1) /
          604800000 : ℕ) : ℤ) := by
  unfold weekNumber
  have hrw : ((d.msOfYear : ℚ) / 86400000 + (d.jan1Weekday : ℚ) + 1) / 7 =
      ((d.msOfYear + (d.jan1Weekday + 1) * 86400000 : ℕ) : ℚ) /
        ((604800000 : ℕ) : ℚ) := by
    push_cast
    field_simp
    ring
  rw [hrw, ceil_natCast_div_natCast _ _ (by norm_num)]

/-- C7: the month bucket key is `YYYY-MM` with the zero-padded calendar
month, and the week bucket key (the default period) is `YYYY-Www` where the
week number is `ceil(((date − Jan1) in days + Jan1's weekday index
(Sunday = 0) + 1) / 7)`, zero-padded to two digits; equivalently, the week
number is the exact natural-number ceiling division shown in the third
conjunct. -/
theorem historyKey_formats (d : JSDate) :
    historyKey "month" d =
      toString d.year ++ "-" ++ padStart2 (toString (d.month + 1)) ∧
    historyKey "week" d =
      toString d.year ++ "-W" ++
        padStart2
          (toString ⌈((d.msOfYear : ℚ) / 86400000 + (d.jan1Weekday : ℚ) + 1) / 7⌉) ∧
    weekNumber d =
      (((d.msOfYear + (d.jan1Weekday + 1) * 86400000 + 604800000 - 1) /
          604800000 : ℕ) : ℤ) := by
  refine ⟨rfl, ?_, weekNumber_eq_natDiv d⟩
  unfold historyKey
  rw [if_neg (by decide)]
  rfl

end FamilyTasks
